import Mathlib

/-!
# KORC-FO `korc_c_random.cpp`: seeded random source behind a C interface

The translation unit wraps a `std::mt19937_64` engine and a
`std::uniform_real_distribution<double>` in `class random` and exports three
functions, `random_construct`, `random_get_number` and `random_destroy`,
working on a `void *` handle obtained from `new` and released by `delete`.

Embedding.
* Machine words are `Nat` reduced modulo `2 ^ 64` where the C++ arithmetic wraps.
* `std::mt19937_64` is the instantiation
  `mersenne_twister_engine<uint_fast64_t, 64, 312, 156, 31, 0xb5026f5aa96619e9, 29,
  0x5555555555555555, 17, 0x71d67fffeda60000, 37, 0xfff7eee000000000, 43,
  6364136223846793005>`; ISO C++ [rand.eng.mers] fixes its seeding, transition
  and tempering bit for bit, and the model follows it with the usual
  array-plus-index representation.
* `std::uniform_real_distribution<double>` draws through
  `generate_canonical<double, 53>`, for which [rand.util.canonical] fixes the
  number of engine invocations; the floating-point evaluation that turns the
  engine outputs into a `double` is left to the library by the standard and is
  a parameter (`FloatEval`) of the model; `libstdcxx_eval` is the evaluation
  of libstdc++, in exact rational arithmetic.
* The free store is an association list from addresses to objects; `new`
  is an `Allocator` that hands out a non-null address not in use, `delete`
  removes the binding, and the use of a pointer that does not point to a
  live object is `Outcome.undefined`.
-/

namespace KORC

set_option linter.dupNamespace false

/-! ## Template arguments of `std::mt19937_64` -/

def word_size : Nat := 64
def state_size : Nat := 312
def shift_size : Nat := 156
def mask_bits : Nat := 31
def xor_mask : Nat := 0xb5026f5aa96619e9
def tempering_u : Nat := 29
def tempering_d : Nat := 0x5555555555555555
def tempering_s : Nat := 17
def tempering_b : Nat := 0x71d67fffeda60000
def tempering_t : Nat := 37
def tempering_c : Nat := 0xfff7eee000000000
def tempering_l : Nat := 43
def initialization_multiplier : Nat := 6364136223846793005

/-- Reduction of a natural number to a `uint64_t`. -/
def u64 (x : Nat) : Nat := x % 2 ^ word_size

/-- The `int` of the C interface: a signed 32-bit integer. -/
structure c_int where
  val : Int
  lo : -2147483648 ≤ val
  hi : val ≤ 2147483647

/-- The conversion `static_cast<uint64_t>(seed)` of an `int`: the value modulo `2 ^ 64`. -/
def static_cast_uint64_t (seed : c_int) : Nat := (seed.val % 2 ^ 64).toNat

/-- State of `std::mt19937_64`: the `state_size` words and the read position. -/
structure mt19937_64 where
  x : List Nat
  p : Nat
deriving DecidableEq

/-- Words `X_i`, `X_{i+1}`, ... of the seeding recurrence
`X_i = (f * (X_{i-1} xor (X_{i-1} >> (w - 2))) + i mod n) mod 2^w`, `count` of them. -/
def seed_words : Nat → Nat → Nat → List Nat
  | 0, _, _ => []
  | count + 1, i, prev =>
    let xi := u64 (initialization_multiplier * (prev ^^^ (prev >>> (word_size - 2)))
      + i % state_size)
    xi :: seed_words count (i + 1) xi

/-- Constructor `mt19937_64(result_type value)`: first word `value mod 2^w`, the others by the
recurrence, read position at the end so that the first invocation regenerates the block. -/
def mt19937_64.seed (value : Nat) : mt19937_64 :=
  { x := u64 value :: seed_words (state_size - 1) 1 (u64 value), p := state_size }

def upper_mask : Nat := u64 ((2 ^ word_size - 1) <<< mask_bits)
def lower_mask : Nat := (2 ^ word_size - 1) ^^^ upper_mask

/-- One step of the block regeneration: word `k` is replaced using words `k`, `j` and `mi`. -/
def twist (x : List Nat) (k j mi : Nat) : List Nat :=
  let y := (x.getD k 0 &&& upper_mask) ||| (x.getD j 0 &&& lower_mask)
  x.set k (x.getD mi 0 ^^^ (y >>> 1) ^^^ (if y &&& 1 = 1 then xor_mask else 0))

/-- Regeneration of the whole block of `state_size` words, in place, in index order. -/
def mt19937_64.gen_rand (e : mt19937_64) : mt19937_64 :=
  let x1 := (List.range (state_size - shift_size)).foldl
    (fun x k => twist x k (k + 1) (k + shift_size)) e.x
  let x2 := (List.range (shift_size - 1)).foldl
    (fun x i => twist x (state_size - shift_size + i) (state_size - shift_size + i + 1) i) x1
  let x3 := twist x2 (state_size - 1) 0 (shift_size - 1)
  { x := x3, p := 0 }

/-- Tempering of a state word into an output. -/
def temper (z0 : Nat) : Nat :=
  let z1 := z0 ^^^ ((z0 >>> tempering_u) &&& tempering_d)
  let z2 := z1 ^^^ (u64 (z1 <<< tempering_s) &&& tempering_b)
  let z3 := z2 ^^^ (u64 (z2 <<< tempering_t) &&& tempering_c)
  z3 ^^^ (z3 >>> tempering_l)

/-- One invocation `operator()` of the engine: the output and the advanced state. -/
def mt19937_64.next (e : mt19937_64) : Nat × mt19937_64 :=
  let e1 := if state_size ≤ e.p then e.gen_rand else e
  (temper (e1.x.getD e1.p 0), { e1 with p := e1.p + 1 })

/-- The engine after `z` further invocations (the effect of `discard(z)`). -/
def mt19937_64.discard : Nat → mt19937_64 → mt19937_64
  | 0, e => e
  | z + 1, e => discard z e.next.2

/-- Output of the invocation that follows `i` earlier ones: output number `i + 1`. -/
def mt19937_64.output (e : mt19937_64) (i : Nat) : Nat := (mt19937_64.discard i e).next.1

/-! ## `std::uniform_real_distribution<double>` -/

/-- The value `numeric_limits<double>::digits`. -/
def double_digits : Nat := 53

/-- Floating-point side of the distribution, which the standard leaves to the library: the type
of `double` values and the value computed, for the bounds `a` and `b`, from the engine outputs
`g_0, ..., g_{k-1}` that one `generate_canonical` call collected. -/
structure FloatEval where
  Double : Type
  value : ℚ → ℚ → List Nat → Double

/-- Parameters `a` and `b` of the distribution. -/
structure uniform_real_distribution where
  a : ℚ
  b : ℚ
deriving DecidableEq

/-- Number of engine invocations of one `generate_canonical<double, 53>` call on this engine,
`k = max(1, ceil(b / log2 R))` with `b = min(digits, bits)` and range `R = 2 ^ word_size`. -/
def canonical_invocations : Nat :=
  max 1 ((min double_digits double_digits + word_size - 1) / word_size)

/-- The outputs of `k` successive invocations of the engine, and the engine after them. -/
def invoke : Nat → mt19937_64 → List Nat × mt19937_64
  | 0, e => ([], e)
  | k + 1, e => ((e.next.1 :: (invoke k e.next.2).1), (invoke k e.next.2).2)

/-- The call `dist(engine)`: the value drawn and the engine it leaves behind. -/
def uniform_real_distribution.call (F : FloatEval) (d : uniform_real_distribution)
    (e : mt19937_64) : F.Double × mt19937_64 :=
  (F.value d.a d.b (invoke canonical_invocations e).1, (invoke canonical_invocations e).2)

/-! ## `class random` -/

/-- Data members of `class random`. -/
structure random where
  engine : mt19937_64
  dist : uniform_real_distribution
deriving DecidableEq

/-- Constructor `random(uint64_t seed) : engine(seed), dist(0.0, 1.0)`. -/
def random.random (seed : Nat) : KORC.random :=
  { engine := mt19937_64.seed seed, dist := { a := 0, b := 1 } }

/-- Member `get_number`: `return dist(engine);`, with the object as it is afterwards. -/
def random.get_number (F : FloatEval) (r : KORC.random) : F.Double × KORC.random :=
  ((r.dist.call F r.engine).1, { r with engine := (r.dist.call F r.engine).2 })

/-! ## Free store and the exported functions -/

/-- Error kinds named in section 7 of the specification for a hardened reimplementation; no
function of the source produces them. -/
inductive Error where
  | InvalidHandle
  | AllocationFailure
deriving DecidableEq

/-- Result of a call: a value, one of the specification's errors, or undefined behaviour. -/
inductive Outcome (α : Type) where
  | ok (a : α)
  | error (e : Error)
  | undefined

/-- Live objects of the free store, by address; address `0` is the null pointer. -/
abbrev Heap := List (Nat × KORC.random)

/-- The object an address points to, when it is live. -/
def Heap.find : Heap → Nat → Option KORC.random
  | [], _ => none
  | c :: t, r => if c.1 = r then some c.2 else Heap.find t r

/-- The free store with the object at address `r` replaced by `o`. -/
def Heap.store : Heap → Nat → KORC.random → Heap
  | [], _, _ => []
  | c :: t, r, o => (if c.1 = r then (c.1, o) else c) :: Heap.store t r o

/-- The free store without the object at address `r`. -/
def Heap.free : Heap → Nat → Heap
  | [], _ => []
  | c :: t, r => if c.1 = r then Heap.free t r else c :: Heap.free t r

/-- Addresses in use. -/
def Heap.addrs (H : Heap) : List Nat := H.map Prod.fst

/-- The allocation of `new`: from the addresses in use it returns the address of fresh storage,
which is not null and not one of them. Exhaustion of memory is outside the model. -/
structure Allocator where
  pick : List Nat → Nat
  pick_fresh : ∀ l, pick l ∉ l
  pick_nonnull : ∀ l, pick l ≠ 0

/-- `void *random_construct(int seed)`: `new class random(static_cast<uint64_t>(seed))`;
the handle returned and the free store afterwards. -/
def random_construct (A : Allocator) (H : Heap) (seed : c_int) : Nat × Heap :=
  (A.pick H.addrs, (A.pick H.addrs, random.random (static_cast_uint64_t seed)) :: H)

/-- `double random_get_number(void *r)`: `static_cast<class random *>(r)->get_number()`.
The pointer is dereferenced unchecked: undefined unless it points to a live object. -/
def random_get_number (F : FloatEval) (H : Heap) (r : Nat) : Outcome (F.Double × Heap) :=
  if r = 0 then Outcome.undefined
  else match H.find r with
    | none => Outcome.undefined
    | some o => Outcome.ok ((o.get_number F).1, H.store r (o.get_number F).2)

/-- `void random_destroy(void *r)`: `delete static_cast<class random *>(r)`. Deleting the null
pointer does nothing; deleting any other pointer that is not live is undefined. -/
def random_destroy (H : Heap) (r : Nat) : Outcome Heap :=
  if r = 0 then Outcome.ok H
  else match H.find r with
    | none => Outcome.undefined
    | some _ => Outcome.ok (H.free r)

/-! ## Callers: repeated and interleaved draws -/

/-- A caller that draws `n` times in a row from handle `r`: the values in order and the free
store afterwards. -/
def draw_many (F : FloatEval) : Nat → Heap → Nat → Outcome (List F.Double × Heap)
  | 0, H, _ => Outcome.ok ([], H)
  | n + 1, H, r =>
    match random_get_number F H r with
    | Outcome.ok (v, H1) =>
      match draw_many F n H1 r with
      | Outcome.ok (vs, H2) => Outcome.ok (v :: vs, H2)
      | Outcome.error e => Outcome.error e
      | Outcome.undefined => Outcome.undefined
    | Outcome.error e => Outcome.error e
    | Outcome.undefined => Outcome.undefined

/-- A caller that draws once from each handle of the list `t`, in order: the log of
(handle, value) pairs and the free store afterwards. -/
def draw_trace (F : FloatEval) : List Nat → Heap → Outcome (List (Nat × F.Double) × Heap)
  | [], H => Outcome.ok ([], H)
  | r :: t, H =>
    match random_get_number F H r with
    | Outcome.ok (v, H1) =>
      match draw_trace F t H1 with
      | Outcome.ok (log, H2) => Outcome.ok ((r, v) :: log, H2)
      | Outcome.error e => Outcome.error e
      | Outcome.undefined => Outcome.undefined
    | Outcome.error e => Outcome.error e
    | Outcome.undefined => Outcome.undefined

/-- The values the log of a trace records for handle `r`, in order. -/
def values_of {D : Type} (log : List (Nat × D)) (r : Nat) : List D :=
  (log.filter (fun c => decide (c.1 = r))).map Prod.snd

/-- The first `n` values an object yields, by the member function alone. -/
def random.draws (F : FloatEval) : Nat → KORC.random → List F.Double
  | 0, _ => []
  | n + 1, o => (o.get_number F).1 :: random.draws F n (o.get_number F).2

/-- The object after `n` calls of the member function. -/
def random.after (F : FloatEval) : Nat → KORC.random → KORC.random
  | 0, o => o
  | n + 1, o => random.after F n (o.get_number F).2

/-! ## Concrete instances used to evaluate the model -/

/-- An allocator: one above the largest address in use. -/
def bump : Allocator where
  pick := fun l => l.foldr max 0 + 1
  pick_fresh := by
    intro l
    show l.foldr max 0 + 1 ∉ l
    have hle : ∀ (t : List Nat) (a : Nat), a ∈ t → a ≤ t.foldr max 0 := by
      intro t
      induction t with
      | nil => intro a ha; cases ha
      | cons b t ih =>
        intro a ha
        rcases List.mem_cons.mp ha with h | h
        · subst h; simp
        · have := ih a h
          simp only [List.foldr_cons]
          omega
    intro hmem
    have := hle l _ hmem
    omega
  pick_nonnull := fun l => Nat.succ_ne_zero _

/-- A floating-point evaluation to run the model with: the first engine output itself. -/
def raw_eval : FloatEval where
  Double := Nat
  value := fun _ _ gs => gs.headD 0

/-- Number of bits by which `g` is longer than the 53 bits of a `double` significand; `fuel`
bounds the search and `word_size` is enough for a `uint64_t`. -/
def excess_bits : Nat → Nat → Nat
  | 0, _ => 0
  | fuel + 1, g => if g < 2 ^ double_digits then 0 else excess_bits fuel (g / 2) + 1

/-- Conversion of a `uint64_t` to `double` under the default rounding mode, as the integer the
resulting `double` holds: values below `2 ^ 53` are exact, larger ones keep their 53 leading
bits, rounded to nearest with ties to the even significand. -/
def uint64_to_double (g : Nat) : Nat :=
  if g < 2 ^ double_digits then g
  else
    let sh := excess_bits word_size g
    let q := g >>> sh
    let rem := g % 2 ^ sh
    let half := 2 ^ (sh - 1)
    if half < rem ∨ (rem = half ∧ q % 2 = 1) then (q + 1) <<< sh else q <<< sh

/-- The sum `S = g_0 + g_1 * R + ...` of `generate_canonical`, each output converted to
`double`, and the power `R ^ k` next to it, with `R = 2 ^ word_size`. With one output, the
only case `canonical_invocations` produces, no operation of the loop rounds. -/
def canonical_sum : List Nat → ℚ × ℚ
  | [] => (0, 1)
  | g :: gs =>
    ((uint64_to_double g : ℚ) + 2 ^ word_size * (canonical_sum gs).1,
      2 ^ word_size * (canonical_sum gs).2)

/-- The floating-point evaluation of libstdc++, on exact rationals: `generate_canonical`
returns `S / R ^ k`, replaced by `nextafter(1.0, 0.0) = 1 - 2 ^ -53` when the quotient is not
below `1.0`, and the distribution returns `u * (b - a) + a`, which is exact for the bounds
`0.0` and `1.0` of the source. -/
@[reducible] def libstdcxx_eval : FloatEval where
  Double := ℚ
  value := fun a b gs =>
    let ret := (canonical_sum gs).1 / (canonical_sum gs).2
    (if 1 ≤ ret then 1 - 1 / 2 ^ double_digits else ret) * (b - a) + a

/-- The seed `42` as an `int`. -/
def seed42 : c_int := { val := 42, lo := by decide, hi := by decide }

/-- The seed `-1` as an `int`. -/
def seed_neg1 : c_int := { val := -1, lo := by decide, hi := by decide }

/-! ## Facts about the engine and the member function -/

theorem canonical_invocations_eq : canonical_invocations = 1 := by decide

theorem gen_rand_p (e : mt19937_64) : e.gen_rand.p = 0 := rfl

theorem next_p (e : mt19937_64) :
    e.next.2.p = (if state_size ≤ e.p then 0 else e.p) + 1 := by
  unfold mt19937_64.next
  by_cases h : state_size ≤ e.p
  · simp [h, gen_rand_p]
  · simp [h]

theorem next_state_ne (e : mt19937_64) : e.next.2 ≠ e := by
  intro h
  have hp := next_p e
  rw [h] at hp
  by_cases hs : state_size ≤ e.p
  · rw [if_pos hs] at hp
    have : state_size = 312 := rfl
    omega
  · rw [if_neg hs] at hp
    omega

theorem seed_head (value : Nat) : (mt19937_64.seed value).x.head? = some (u64 value) := rfl

theorem discard_succ (z : Nat) (e : mt19937_64) :
    mt19937_64.discard (z + 1) e = mt19937_64.discard z e.next.2 := rfl

theorem discard_next (z : Nat) (e : mt19937_64) :
    (mt19937_64.discard z e).next.2 = mt19937_64.discard (z + 1) e := by
  induction z generalizing e with
  | zero => rfl
  | succ z ih => exact ih e.next.2

theorem call_value (F : FloatEval) (d : uniform_real_distribution) (e : mt19937_64) :
    (d.call F e).1 = F.value d.a d.b [e.next.1] := by
  unfold uniform_real_distribution.call
  rw [canonical_invocations_eq]
  rfl

theorem call_engine (F : FloatEval) (d : uniform_real_distribution) (e : mt19937_64) :
    (d.call F e).2 = e.next.2 := by
  unfold uniform_real_distribution.call
  rw [canonical_invocations_eq]
  rfl

theorem get_number_value (F : FloatEval) (o : KORC.random) :
    (o.get_number F).1 = F.value o.dist.a o.dist.b [o.engine.next.1] := by
  unfold random.get_number
  exact call_value F o.dist o.engine

theorem get_number_engine (F : FloatEval) (o : KORC.random) :
    (o.get_number F).2.engine = o.engine.next.2 := by
  unfold random.get_number
  exact call_engine F o.dist o.engine

theorem get_number_object (F : FloatEval) (o : KORC.random) :
    (o.get_number F).2 = { engine := o.engine.next.2, dist := o.dist } := by
  unfold random.get_number
  rw [call_engine]

theorem get_number_dist (F : FloatEval) (o : KORC.random) :
    (o.get_number F).2.dist = o.dist := rfl

theorem after_eq (F : FloatEval) (n : Nat) (o : KORC.random) :
    random.after F n o = { engine := mt19937_64.discard n o.engine, dist := o.dist } := by
  induction n generalizing o with
  | zero => rfl
  | succ n ih =>
    show random.after F n (o.get_number F).2 = _
    rw [ih, get_number_engine, get_number_dist, discard_succ]

theorem draws_eq (F : FloatEval) (n : Nat) (o : KORC.random) :
    random.draws F n o
      = (List.range n).map (fun i => F.value o.dist.a o.dist.b [o.engine.output i]) := by
  induction n generalizing o with
  | zero => rfl
  | succ n ih =>
    show (o.get_number F).1 :: random.draws F n (o.get_number F).2 = _
    rw [ih, get_number_value, get_number_engine, get_number_dist, List.range_succ_eq_map,
      List.map_cons, List.map_map]
    rfl

theorem draws_length (F : FloatEval) (n : Nat) (o : KORC.random) :
    (random.draws F n o).length = n := by
  rw [draws_eq]; simp

/-! ## Facts about the free store -/

theorem find_cons_self (H : Heap) (r : Nat) (o : KORC.random) :
    Heap.find ((r, o) :: H) r = some o := by
  simp [Heap.find]

theorem find_cons_other (H : Heap) (r k : Nat) (o : KORC.random) (h : r ≠ k) :
    Heap.find ((r, o) :: H) k = Heap.find H k := by
  simp [Heap.find, h]

theorem find_cons (c : Nat × KORC.random) (t : Heap) (k : Nat) :
    Heap.find (c :: t) k = if c.1 = k then some c.2 else Heap.find t k := rfl

theorem store_cons (c : Nat × KORC.random) (t : Heap) (r : Nat) (o : KORC.random) :
    Heap.store (c :: t) r o = (if c.1 = r then (c.1, o) else c) :: Heap.store t r o := rfl

theorem free_cons (c : Nat × KORC.random) (t : Heap) (r : Nat) :
    Heap.free (c :: t) r = if c.1 = r then Heap.free t r else c :: Heap.free t r := rfl

theorem find_store_same (H : Heap) (r : Nat) (o o1 : KORC.random) (h : H.find r = some o) :
    (H.store r o1).find r = some o1 := by
  induction H with
  | nil => cases h
  | cons c t ih =>
    rw [store_cons]
    by_cases hc : c.1 = r
    · rw [if_pos hc, find_cons, if_pos hc]
    · rw [find_cons, if_neg hc] at h
      rw [if_neg hc, find_cons, if_neg hc]
      exact ih h

theorem find_store_other (H : Heap) (r k : Nat) (o1 : KORC.random) (h : r ≠ k) :
    (H.store r o1).find k = H.find k := by
  induction H with
  | nil => rfl
  | cons c t ih =>
    rw [store_cons, find_cons c t k]
    by_cases hc : c.1 = r
    · have hk : ¬ c.1 = k := by rw [hc]; exact h
      rw [if_pos hc, find_cons, if_neg hk, if_neg hk]
      exact ih
    · rw [if_neg hc, find_cons, ih]

theorem find_free_same (H : Heap) (r : Nat) : (H.free r).find r = none := by
  induction H with
  | nil => rfl
  | cons c t ih =>
    rw [free_cons]
    by_cases hc : c.1 = r
    · rw [if_pos hc]; exact ih
    · rw [if_neg hc, find_cons, if_neg hc]; exact ih

theorem find_free_other (H : Heap) (r k : Nat) (h : r ≠ k) :
    (H.free r).find k = H.find k := by
  induction H with
  | nil => rfl
  | cons c t ih =>
    rw [free_cons, find_cons c t k]
    by_cases hc : c.1 = r
    · have hk : ¬ c.1 = k := by rw [hc]; exact h
      rw [if_pos hc, if_neg hk]
      exact ih
    · rw [if_neg hc, find_cons, ih]

theorem find_none_of_not_mem (H : Heap) (r : Nat) (h : r ∉ H.addrs) : H.find r = none := by
  induction H with
  | nil => rfl
  | cons c t ih =>
    have h1 : ¬ c.1 = r := fun e => h (by simp [Heap.addrs, e.symm])
    have h2 : r ∉ Heap.addrs t := fun m => h (by
      simp only [Heap.addrs, List.map_cons, List.mem_cons]
      exact Or.inr m)
    simp [Heap.find, h1, ih h2]

theorem free_of_not_mem (H : Heap) (r : Nat) (h : r ∉ H.addrs) : H.free r = H := by
  induction H with
  | nil => rfl
  | cons c t ih =>
    have h1 : ¬ c.1 = r := fun e => h (by simp [Heap.addrs, e.symm])
    have h2 : r ∉ Heap.addrs t := fun m => h (by
      simp only [Heap.addrs, List.map_cons, List.mem_cons]
      exact Or.inr m)
    rw [free_cons, if_neg h1, ih h2]

/-! ## Facts about the exported functions -/

theorem get_number_live (F : FloatEval) (H : Heap) (r : Nat) (o : KORC.random)
    (hr : r ≠ 0) (h : H.find r = some o) :
    random_get_number F H r
      = Outcome.ok ((o.get_number F).1, H.store r (o.get_number F).2) := by
  unfold random_get_number
  rw [if_neg hr, h]

theorem get_number_dead (F : FloatEval) (H : Heap) (r : Nat) (h : H.find r = none) :
    random_get_number F H r = Outcome.undefined := by
  unfold random_get_number
  by_cases hr : r = 0
  · rw [if_pos hr]
  · rw [if_neg hr, h]

theorem destroy_live (H : Heap) (r : Nat) (o : KORC.random) (hr : r ≠ 0)
    (h : H.find r = some o) : random_destroy H r = Outcome.ok (H.free r) := by
  unfold random_destroy
  rw [if_neg hr, h]

theorem destroy_dead (H : Heap) (r : Nat) (hr : r ≠ 0) (h : H.find r = none) :
    random_destroy H r = Outcome.undefined := by
  unfold random_destroy
  rw [if_neg hr, h]

theorem destroy_null (H : Heap) : random_destroy H 0 = Outcome.ok H := rfl

theorem get_number_no_error (F : FloatEval) (H : Heap) (r : Nat) (e : Error) :
    random_get_number F H r ≠ Outcome.error e := by
  cases hf : H.find r with
  | none =>
    rw [get_number_dead F H r hf]
    exact fun h => Outcome.noConfusion h
  | some o =>
    by_cases hr : r = 0
    · unfold random_get_number
      rw [if_pos hr]
      exact fun h => Outcome.noConfusion h
    · rw [get_number_live F H r o hr hf]
      exact fun h => Outcome.noConfusion h

theorem destroy_no_error (H : Heap) (r : Nat) (e : Error) :
    random_destroy H r ≠ Outcome.error e := by
  by_cases hr : r = 0
  · subst hr
    rw [destroy_null]
    exact fun h => Outcome.noConfusion h
  · cases hf : H.find r with
    | none =>
      rw [destroy_dead H r hr hf]
      exact fun h => Outcome.noConfusion h
    | some o =>
      rw [destroy_live H r o hr hf]
      exact fun h => Outcome.noConfusion h

theorem construct_handle (A : Allocator) (H : Heap) (S : c_int) :
    (random_construct A H S).1 = A.pick H.addrs := rfl

theorem construct_heap (A : Allocator) (H : Heap) (S : c_int) :
    (random_construct A H S).2
      = (A.pick H.addrs, random.random (static_cast_uint64_t S)) :: H := rfl

theorem construct_nonnull (A : Allocator) (H : Heap) (S : c_int) :
    (random_construct A H S).1 ≠ 0 := A.pick_nonnull H.addrs

theorem construct_fresh (A : Allocator) (H : Heap) (S : c_int) :
    H.find (random_construct A H S).1 = none :=
  find_none_of_not_mem H _ (A.pick_fresh H.addrs)

theorem construct_find (A : Allocator) (H : Heap) (S : c_int) :
    (random_construct A H S).2.find (random_construct A H S).1
      = some (random.random (static_cast_uint64_t S)) :=
  find_cons_self H _ _

theorem construct_find_other (A : Allocator) (H : Heap) (S : c_int) (k : Nat)
    (hk : (random_construct A H S).1 ≠ k) :
    (random_construct A H S).2.find k = H.find k :=
  find_cons_other H _ k _ hk

theorem draw_many_live (F : FloatEval) (n : Nat) (H : Heap) (r : Nat) (o : KORC.random)
    (hr : r ≠ 0) (h : H.find r = some o) :
    ∃ H1, draw_many F n H r = Outcome.ok (random.draws F n o, H1)
      ∧ H1.find r = some (random.after F n o)
      ∧ ∀ k, r ≠ k → H1.find k = H.find k := by
  induction n generalizing H o with
  | zero => exact ⟨H, rfl, h, fun _ _ => rfl⟩
  | succ n ih =>
    obtain ⟨H1, hd, hf, hk⟩ :=
      ih (H.store r (o.get_number F).2) (o.get_number F).2 (find_store_same H r o _ h)
    refine ⟨H1, ?_, hf, ?_⟩
    · show (match random_get_number F H r with
        | Outcome.ok (v, H1) =>
          match draw_many F n H1 r with
          | Outcome.ok (vs, H2) => Outcome.ok (v :: vs, H2)
          | Outcome.error e => Outcome.error e
          | Outcome.undefined => Outcome.undefined
        | Outcome.error e => Outcome.error e
        | Outcome.undefined => Outcome.undefined) = _
      rw [get_number_live F H r o hr h]
      simp only [hd]
      rfl
    · intro k hne
      rw [hk k hne, find_store_other H r k _ hne]

theorem draw_many_construct (F : FloatEval) (A : Allocator) (H : Heap) (S : c_int) (n : Nat) :
    ∃ H1, draw_many F n (random_construct A H S).2 (random_construct A H S).1
        = Outcome.ok (random.draws F n (random.random (static_cast_uint64_t S)), H1)
      ∧ H1.find (random_construct A H S).1
        = some (random.after F n (random.random (static_cast_uint64_t S)))
      ∧ ∀ k, (random_construct A H S).1 ≠ k → H1.find k = H.find k := by
  obtain ⟨H1, hd, hf, hk⟩ := draw_many_live F n (random_construct A H S).2
    (random_construct A H S).1 _ (construct_nonnull A H S) (construct_find A H S)
  exact ⟨H1, hd, hf, fun k hne => by rw [hk k hne, construct_find_other A H S k hne]⟩

theorem values_of_cons_same {D : Type} (r : Nat) (v : D) (log : List (Nat × D)) :
    values_of ((r, v) :: log) r = v :: values_of log r := by
  simp [values_of, List.filter_cons]

theorem values_of_cons_other {D : Type} (r k : Nat) (v : D) (log : List (Nat × D))
    (h : r ≠ k) : values_of ((r, v) :: log) k = values_of log k := by
  simp [values_of, List.filter_cons, h]

theorem draw_trace_live (F : FloatEval) (t : List Nat) (H : Heap)
    (hlive : ∀ h ∈ t, h ≠ 0 ∧ H.find h ≠ none) :
    ∃ log H1, draw_trace F t H = Outcome.ok (log, H1)
      ∧ ∀ k o, H.find k = some o →
          values_of log k = random.draws F (t.count k) o
          ∧ H1.find k = some (random.after F (t.count k) o) := by
  induction t generalizing H with
  | nil => exact ⟨[], H, rfl, fun k o hk => ⟨rfl, hk⟩⟩
  | cons r t ih =>
    have hr := hlive r (List.mem_cons_self r t)
    obtain ⟨o, ho⟩ : ∃ o, H.find r = some o := by
      cases hx : H.find r with
      | none => exact absurd hx hr.2
      | some o => exact ⟨o, rfl⟩
    have hlive1 : ∀ h ∈ t, h ≠ 0 ∧ (H.store r (o.get_number F).2).find h ≠ none := by
      intro h hm
      have hh := hlive h (List.mem_cons_of_mem r hm)
      refine ⟨hh.1, ?_⟩
      by_cases e : r = h
      · subst e
        rw [find_store_same H r o _ ho]
        exact Option.some_ne_none _
      · rw [find_store_other H r h _ e]
        exact hh.2
    obtain ⟨log, H1, hd, hspec⟩ := ih (H.store r (o.get_number F).2) hlive1
    refine ⟨(r, (o.get_number F).1) :: log, H1, ?_, ?_⟩
    · show (match random_get_number F H r with
        | Outcome.ok (v, H1) =>
          match draw_trace F t H1 with
          | Outcome.ok (log, H2) => Outcome.ok ((r, v) :: log, H2)
          | Outcome.error e => Outcome.error e
          | Outcome.undefined => Outcome.undefined
        | Outcome.error e => Outcome.error e
        | Outcome.undefined => Outcome.undefined) = _
      rw [get_number_live F H r o hr.1 ho]
      simp only [hd]
    · intro k ok hk
      by_cases e : r = k
      · subst e
        have hoo : ok = o := by rw [ho] at hk; exact (Option.some.inj hk).symm
        subst hoo
        obtain ⟨h1, h2⟩ := hspec r (ok.get_number F).2 (find_store_same H r ok _ ho)
        rw [values_of_cons_same, List.count_cons_self, h1]
        exact ⟨rfl, h2⟩
      · have hk1 : (H.store r (o.get_number F).2).find k = some ok := by
          rw [find_store_other H r k _ e]; exact hk
        obtain ⟨h1, h2⟩ := hspec k ok hk1
        rw [values_of_cons_other r k _ log e, List.count_cons_of_ne (Ne.symm e)]
        exact ⟨h1, h2⟩

/-! ## Facts about the seed conversion -/

theorem static_cast_lt (s : c_int) : static_cast_uint64_t s < 2 ^ 64 := by
  have h1 := s.lo
  have h2 := s.hi
  unfold static_cast_uint64_t
  omega

theorem static_cast_nonneg (s : c_int) (h : 0 ≤ s.val) :
    (static_cast_uint64_t s : Int) = s.val := by
  have h2 := s.hi
  unfold static_cast_uint64_t
  omega

theorem static_cast_neg (s : c_int) (h : s.val < 0) :
    (static_cast_uint64_t s : Int) = 2 ^ 64 + s.val := by
  have h1 := s.lo
  unfold static_cast_uint64_t
  omega

theorem c_int_eq (s1 s2 : c_int) (h : s1.val = s2.val) : s1 = s2 := by
  cases s1
  cases s2
  cases h
  rfl

theorem static_cast_injective (s1 s2 : c_int)
    (h : static_cast_uint64_t s1 = static_cast_uint64_t s2) : s1 = s2 := by
  apply c_int_eq
  have a1 := s1.lo
  have a2 := s1.hi
  have b1 := s2.lo
  have b2 := s2.hi
  unfold static_cast_uint64_t at h
  omega

theorem static_cast_range (S : Nat) :
    (∃ s : c_int, static_cast_uint64_t s = S)
      ↔ (S < 2 ^ 31 ∨ (2 ^ 64 - 2 ^ 31 ≤ S ∧ S < 2 ^ 64)) := by
  constructor
  · rintro ⟨s, rfl⟩
    have h1 := s.lo
    have h2 := s.hi
    unfold static_cast_uint64_t
    omega
  · rintro (h | ⟨h1, h2⟩)
    · refine ⟨⟨(S : Int), by omega, by omega⟩, ?_⟩
      unfold static_cast_uint64_t
      show ((S : Int) % 2 ^ 64).toNat = S
      omega
    · refine ⟨⟨(S : Int) - 2 ^ 64, by omega, by omega⟩, ?_⟩
      unfold static_cast_uint64_t
      show (((S : Int) - 2 ^ 64) % 2 ^ 64).toNat = S
      omega

theorem u64_static_cast (s : c_int) : u64 (static_cast_uint64_t s) = static_cast_uint64_t s :=
  Nat.mod_eq_of_lt (static_cast_lt s)

theorem seed_engine_ne (s1 s2 : c_int) (h : s1 ≠ s2) :
    mt19937_64.seed (static_cast_uint64_t s1) ≠ mt19937_64.seed (static_cast_uint64_t s2) := by
  intro e
  have hh := congrArg (fun m => m.x.head?) e
  simp only [seed_head, u64_static_cast] at hh
  exact h (static_cast_injective s1 s2 (Option.some.inj hh))

/-! ## The claims -/

/-- Claim C1. Determinism: two instances constructed from the same seed `S`, in two separate
free stores or one after the other in the same free store, and drawn `N` times each, both
return, and return the same list of `N` values. -/
theorem C1_determinism (F : FloatEval) (A1 A2 : Allocator) (Ha Hb : Heap) (S : c_int)
    (N : Nat) :
    (∃ vs Ha1 Hb1,
      draw_many F N (random_construct A1 Ha S).2 (random_construct A1 Ha S).1
        = Outcome.ok (vs, Ha1)
      ∧ draw_many F N (random_construct A2 Hb S).2 (random_construct A2 Hb S).1
        = Outcome.ok (vs, Hb1)
      ∧ vs.length = N)
    ∧ (∃ vs H1 H2,
      draw_many F N (random_construct A2 (random_construct A1 Ha S).2 S).2
          (random_construct A1 Ha S).1 = Outcome.ok (vs, H1)
      ∧ draw_many F N H1 (random_construct A2 (random_construct A1 Ha S).2 S).1
          = Outcome.ok (vs, H2)
      ∧ vs.length = N) := by
  constructor
  · obtain ⟨Ha1, ha, _, _⟩ := draw_many_construct F A1 Ha S N
    obtain ⟨Hb1, hb, _, _⟩ := draw_many_construct F A2 Hb S N
    exact ⟨_, Ha1, Hb1, ha, hb, draws_length F N _⟩
  · have hne : (random_construct A2 (random_construct A1 Ha S).2 S).1
        ≠ (random_construct A1 Ha S).1 := by
      intro e
      have hf := construct_fresh A2 (random_construct A1 Ha S).2 S
      rw [e, construct_find A1 Ha S] at hf
      cases hf
    have hlive1 : (random_construct A2 (random_construct A1 Ha S).2 S).2.find
        (random_construct A1 Ha S).1 = some (random.random (static_cast_uint64_t S)) := by
      rw [construct_find_other A2 _ S _ hne]
      exact construct_find A1 Ha S
    obtain ⟨H1, h1, _, hk1⟩ := draw_many_live F N _ (random_construct A1 Ha S).1 _
      (construct_nonnull A1 Ha S) hlive1
    have hlive2 : H1.find (random_construct A2 (random_construct A1 Ha S).2 S).1
        = some (random.random (static_cast_uint64_t S)) := by
      rw [hk1 _ (Ne.symm hne)]
      exact construct_find A2 _ S
    obtain ⟨H2, h2, _, _⟩ := draw_many_live F N H1 _ _
      (construct_nonnull A2 (random_construct A1 Ha S).2 S) hlive2
    exact ⟨_, H1, H2, h1, h2, draws_length F N _⟩

/-- Claim C3, counterexample. No call of `random_construct` yields an engine seeded with the
64-bit value `2 ^ 31 = 2147483648`: the parameter is an `int`. -/
theorem C3_counterexample :
    ¬ ∃ (A : Allocator) (H : Heap) (s : c_int) (o : KORC.random),
      (random_construct A H s).2.find (random_construct A H s).1 = some o
      ∧ o.engine = mt19937_64.seed 2147483648 := by
  rintro ⟨A, H, s, o, hf, he⟩
  rw [construct_find A H s] at hf
  have ho : o = random.random (static_cast_uint64_t s) := (Option.some.inj hf).symm
  subst ho
  have hh := congrArg (fun m => m.x.head?) he
  have h3 : (random.random (static_cast_uint64_t s)).engine
      = mt19937_64.seed (static_cast_uint64_t s) := rfl
  simp only [h3, seed_head, u64_static_cast] at hh
  have h4 : static_cast_uint64_t s = u64 2147483648 := Option.some.inj hh
  have h5 : u64 2147483648 = 2147483648 := by decide
  rw [h5] at h4
  have h6 := (static_cast_range 2147483648).mp ⟨s, h4⟩
  omega

/-- Claim C3, amended. `random_construct` takes a signed 32-bit `int` seed `s`; the instance
behind the returned handle holds the 64-bit Mersenne Twister seeded with exactly
`static_cast<uint64_t>(s)`, which is `s` modulo `2 ^ 64`, and the distribution with bounds
`0.0` and `1.0`; the 64-bit values `S` that some seed reaches are those below `2 ^ 31` and
those from `2 ^ 64 - 2 ^ 31` on, and no others. -/
theorem C3_construct_seeds_engine (A : Allocator) (H : Heap) (s : c_int) :
    (random_construct A H s).2.find (random_construct A H s).1
        = some { engine := mt19937_64.seed (static_cast_uint64_t s),
                 dist := { a := 0, b := 1 } }
    ∧ (static_cast_uint64_t s : Int) = s.val % 2 ^ 64
    ∧ ∀ S : Nat, (∃ s1 : c_int, static_cast_uint64_t s1 = S)
        ↔ (S < 2 ^ 31 ∨ (2 ^ 64 - 2 ^ 31 ≤ S ∧ S < 2 ^ 64)) := by
  refine ⟨construct_find A H s, ?_, static_cast_range⟩
  unfold static_cast_uint64_t
  omega

/-- Claim C5. Lifecycle without draws: `random_construct` followed at once by
`random_destroy` on the returned handle succeeds and leaves the free store exactly as it was
before the construct call. -/
theorem C5_construct_destroy (A : Allocator) (H : Heap) (S : c_int) :
    random_destroy (random_construct A H S).2 (random_construct A H S).1 = Outcome.ok H := by
  rw [destroy_live _ _ _ (construct_nonnull A H S) (construct_find A H S)]
  congr 1
  rw [construct_heap, construct_handle, free_cons, if_pos rfl]
  exact free_of_not_mem H _ (A.pick_fresh H.addrs)

/-- Claim C4. A draw is not idempotent: for a live instance `o` behind handle `r`, one call of
`random_get_number` returns a value and leaves behind `r` an instance whose engine state
differs from the one before the call; and there is one function `f` of the seed and the call
number alone such that, whatever the allocator and the free store, the first `N` calls on a
freshly constructed instance return `f S 0, ..., f S (N - 1)`. -/
theorem C4_draw_advances (F : FloatEval) (H : Heap) (r : Nat) (o : KORC.random)
    (hr : r ≠ 0) (hlive : H.find r = some o) :
    (∃ v H1 o1, random_get_number F H r = Outcome.ok (v, H1)
      ∧ H1.find r = some o1 ∧ o1.engine ≠ o.engine)
    ∧ (∃ f : c_int → Nat → F.Double, ∀ (A : Allocator) (H0 : Heap) (S : c_int) (N : Nat),
        ∃ H1, draw_many F N (random_construct A H0 S).2 (random_construct A H0 S).1
          = Outcome.ok ((List.range N).map (f S), H1)) := by
  constructor
  · refine ⟨_, _, _, get_number_live F H r o hr hlive, find_store_same H r o _ hlive, ?_⟩
    rw [get_number_engine]
    exact next_state_ne o.engine
  · refine ⟨fun S i => F.value 0 1 [(mt19937_64.seed (static_cast_uint64_t S)).output i], ?_⟩
    intro A H0 S N
    obtain ⟨H1, hd, _, _⟩ := draw_many_construct F A H0 S N
    refine ⟨H1, ?_⟩
    rw [hd, draws_eq]
    rfl

/-- Claim C4, at a concrete input: the instance constructed from seed `42` in the empty free
store, behind handle `1`. -/
theorem C4_draw_advances_witness :
    (1 : Nat) ≠ 0
    ∧ Heap.find (random_construct bump [] seed42).2 1
        = some (random.random (static_cast_uint64_t seed42))
    ∧ (∃ v H1 o1, random_get_number raw_eval (random_construct bump [] seed42).2 1
          = Outcome.ok (v, H1)
        ∧ H1.find 1 = some o1
        ∧ o1.engine ≠ (random.random (static_cast_uint64_t seed42)).engine) :=
  ⟨by decide, rfl,
    (C4_draw_advances raw_eval (random_construct bump [] seed42).2 1
      (random.random (static_cast_uint64_t seed42)) (by decide) rfl).1⟩

/-- Claim C6, counterexample. After construct and destroy in the empty free store, a draw on the
destroyed handle and a second destroy are undefined behaviour, and so is a destroy of the
never constructed handle `7`: none of them is the error `InvalidHandle`. -/
theorem C6_counterexample :
    random_destroy (random_construct bump [] seed42).2 (random_construct bump [] seed42).1
      = Outcome.ok []
    ∧ random_get_number raw_eval [] (random_construct bump [] seed42).1 = Outcome.undefined
    ∧ random_get_number raw_eval [] (random_construct bump [] seed42).1
      ≠ Outcome.error Error.InvalidHandle
    ∧ random_destroy [] (random_construct bump [] seed42).1 = Outcome.undefined
    ∧ random_destroy [] (random_construct bump [] seed42).1
      ≠ Outcome.error Error.InvalidHandle
    ∧ random_destroy [] 7 ≠ Outcome.error Error.InvalidHandle :=
  ⟨rfl, rfl, fun h => Outcome.noConfusion h, rfl, fun h => Outcome.noConfusion h,
    fun h => Outcome.noConfusion h⟩

/-- Claim C6, amended. After a successful `random_destroy` of a non-null handle the handle is no
longer live; the source checks no handle, so on a handle `r` that is not live (destroyed or
never constructed) `random_get_number` is undefined behaviour, `random_destroy` is undefined
behaviour unless `r` is the null pointer, for which it does nothing, and neither call
produces `InvalidHandle` or any other error, on this or on any other handle. -/
theorem C6_dead_handle_undefined (F : FloatEval) (H : Heap) (r : Nat)
    (hdead : H.find r = none) :
    random_get_number F H r = Outcome.undefined
    ∧ (r ≠ 0 → random_destroy H r = Outcome.undefined)
    ∧ (r = 0 → random_destroy H r = Outcome.ok H)
    ∧ (∀ e, random_get_number F H r ≠ Outcome.error e ∧ random_destroy H r ≠ Outcome.error e)
    ∧ (∀ (H0 H1 : Heap) (k : Nat), k ≠ 0 → random_destroy H0 k = Outcome.ok H1 →
        H1.find k = none)
    ∧ (∀ (H0 : Heap) (k : Nat) (e : Error),
        random_get_number F H0 k ≠ Outcome.error e ∧ random_destroy H0 k ≠ Outcome.error e) := by
  refine ⟨get_number_dead F H r hdead, fun hr => destroy_dead H r hr hdead, ?_, ?_, ?_,
    fun H0 k e => ⟨get_number_no_error F H0 k e, destroy_no_error H0 k e⟩⟩
  · intro hr
    subst hr
    rfl
  · intro e
    constructor
    · rw [get_number_dead F H r hdead]
      exact fun h => Outcome.noConfusion h
    · by_cases hr : r = 0
      · subst hr
        rw [destroy_null]
        exact fun h => Outcome.noConfusion h
      · rw [destroy_dead H r hr hdead]
        exact fun h => Outcome.noConfusion h
  · intro H0 H1 k hk hd
    cases hf : H0.find k with
    | none =>
      rw [destroy_dead H0 k hk hf] at hd
      exact Outcome.noConfusion hd
    | some o =>
      rw [destroy_live H0 k o hk hf] at hd
      have e : H0.free k = H1 := Outcome.ok.inj hd
      rw [← e]
      exact find_free_same H0 k

/-- Claim C6, at a concrete input: handle `1` in the empty free store. -/
theorem C6_dead_handle_undefined_witness :
    Heap.find [] 1 = none
    ∧ random_get_number raw_eval [] 1 = Outcome.undefined
    ∧ random_destroy [] 1 = Outcome.undefined :=
  ⟨rfl, (C6_dead_handle_undefined raw_eval [] 1 rfl).1,
    (C6_dead_handle_undefined raw_eval [] 1 rfl).2.1 (by decide)⟩

/-- Claim C7. Instances are independent: the handle `random_construct` returns is not null and
differs from every live handle, whose objects it leaves alone; for two handles `h1 ≠ h2`, a
successful `random_get_number` or `random_destroy` on `h1` leaves what is behind `h2`
unchanged; and for a live `h2` and any sequence `t` of draws on live handles, the values the
draws on `h2` return within `t`, and the state they leave behind `h2`, are those of the same
number of draws on `h2` with nothing interleaved. -/
theorem C7_instances_independent (F : FloatEval) (H : Heap) (h1 h2 : Nat) (hne : h1 ≠ h2) :
    (∀ (A : Allocator) (S : c_int) (k : Nat), H.find k ≠ none →
        (random_construct A H S).1 ≠ 0 ∧ (random_construct A H S).1 ≠ k
        ∧ (random_construct A H S).2.find k = H.find k)
    ∧ (∀ v H1, random_get_number F H h1 = Outcome.ok (v, H1) → H1.find h2 = H.find h2)
    ∧ (∀ H1, random_destroy H h1 = Outcome.ok H1 → H1.find h2 = H.find h2)
    ∧ (∀ (t : List Nat) (o2 : KORC.random), h2 ≠ 0 → H.find h2 = some o2 →
        (∀ h ∈ t, h ≠ 0 ∧ H.find h ≠ none) →
        ∃ log Ht vs Hd, draw_trace F t H = Outcome.ok (log, Ht)
          ∧ draw_many F (t.count h2) H h2 = Outcome.ok (vs, Hd)
          ∧ values_of log h2 = vs ∧ Ht.find h2 = Hd.find h2) := by
  refine ⟨?_, ?_, ?_, ?_⟩
  · intro A S k hk
    have hk2 : (random_construct A H S).1 ≠ k := by
      intro e
      rw [← e] at hk
      exact hk (construct_fresh A H S)
    exact ⟨construct_nonnull A H S, hk2, construct_find_other A H S k hk2⟩
  · intro v H1 hg
    by_cases hz : h1 = 0
    · unfold random_get_number at hg
      rw [if_pos hz] at hg
      exact Outcome.noConfusion hg
    · cases hf : H.find h1 with
      | none =>
        rw [get_number_dead F H h1 hf] at hg
        exact Outcome.noConfusion hg
      | some o =>
        rw [get_number_live F H h1 o hz hf] at hg
        have e : H.store h1 (o.get_number F).2 = H1 := congrArg Prod.snd (Outcome.ok.inj hg)
        rw [← e]
        exact find_store_other H h1 h2 _ hne
  · intro H1 hd
    by_cases hz : h1 = 0
    · subst hz
      rw [destroy_null] at hd
      rw [← Outcome.ok.inj hd]
    · cases hf : H.find h1 with
      | none =>
        rw [destroy_dead H h1 hz hf] at hd
        exact Outcome.noConfusion hd
      | some o =>
        rw [destroy_live H h1 o hz hf] at hd
        rw [← Outcome.ok.inj hd]
        exact find_free_other H h1 h2 hne
  · intro t o2 hz hf hlive
    obtain ⟨log, Ht, ht, hspec⟩ := draw_trace_live F t H hlive
    obtain ⟨Hd, hd, hfd, _⟩ := draw_many_live F (t.count h2) H h2 o2 hz hf
    obtain ⟨hv, hs⟩ := hspec h2 o2 hf
    exact ⟨log, Ht, _, Hd, ht, hd, hv, by rw [hs, hfd]⟩

/-- Claim C7, at a concrete input: two instances constructed one after the other in the empty
free store, behind handles `1` and `2`; a draw on `1` leaves the object behind `2` as is. -/
theorem C7_instances_independent_witness :
    (1 : Nat) ≠ 2
    ∧ (∀ v H1,
        random_get_number raw_eval
          (random_construct bump (random_construct bump [] seed42).2 seed_neg1).2 1
          = Outcome.ok (v, H1) →
        H1.find 2
          = Heap.find (random_construct bump (random_construct bump [] seed42).2 seed_neg1).2 2) :=
  ⟨by decide,
    (C7_instances_independent raw_eval
      (random_construct bump (random_construct bump [] seed42).2 seed_neg1).2 1 2
      (by decide)).2.1⟩

/-- Claim C8. Seed conversion: the `int` seed is converted to the 64-bit engine seed modulo
`2 ^ 64` (a seed `s >= 0` gives `s`, a seed `s < 0` gives `2 ^ 64 + s`); the conversion is
injective, the first state word of the seeded engine is the converted seed, and two
different seeds give instances whose initial engine states differ. -/
theorem C8_seed_conversion (s1 s2 : c_int) (hne : s1 ≠ s2) :
    (0 ≤ s1.val → (static_cast_uint64_t s1 : Int) = s1.val)
    ∧ (s1.val < 0 → (static_cast_uint64_t s1 : Int) = 2 ^ 64 + s1.val)
    ∧ static_cast_uint64_t s1 ≠ static_cast_uint64_t s2
    ∧ (mt19937_64.seed (static_cast_uint64_t s1)).x.head? = some (static_cast_uint64_t s1)
    ∧ (∀ (A1 A2 : Allocator) (H1 H2 : Heap), ∃ o1 o2,
        (random_construct A1 H1 s1).2.find (random_construct A1 H1 s1).1 = some o1
        ∧ (random_construct A2 H2 s2).2.find (random_construct A2 H2 s2).1 = some o2
        ∧ o1.engine ≠ o2.engine) := by
  refine ⟨static_cast_nonneg s1, static_cast_neg s1,
    fun e => hne (static_cast_injective s1 s2 e), ?_, ?_⟩
  · rw [seed_head, u64_static_cast]
  · intro A1 A2 H1 H2
    exact ⟨_, _, construct_find A1 H1 s1, construct_find A2 H2 s2, seed_engine_ne s1 s2 hne⟩

/-- Claim C8, at a concrete input: the seeds `42` and `-1`, the latter converted to
`2 ^ 64 - 1`. -/
theorem C8_seed_conversion_witness :
    seed42 ≠ seed_neg1
    ∧ static_cast_uint64_t seed42 ≠ static_cast_uint64_t seed_neg1
    ∧ static_cast_uint64_t seed_neg1 = 18446744073709551615 :=
  ⟨fun e => absurd (congrArg c_int.val e) (by decide),
    (C8_seed_conversion seed42 seed_neg1
      (fun e => absurd (congrArg c_int.val e) (by decide))).2.2.1,
    by decide⟩

/-- Claim C9. One engine output per draw: `generate_canonical<double, 53>` invokes the 64-bit
engine once; a call of `random_get_number` on a live instance leaves behind its handle the
instance with the engine advanced by exactly one invocation and returns the value computed
from that one output; so after construction from seed `S` the first `n` draws return the
values computed from engine outputs `1, ..., n` one by one, and the engine is then the freshly
seeded engine invoked `n` times. -/
theorem C9_one_output_per_draw (F : FloatEval) (A : Allocator) (H : Heap) (S : c_int)
    (n : Nat) :
    canonical_invocations = 1
    ∧ (∀ (H0 : Heap) (r : Nat) (o : KORC.random), r ≠ 0 → H0.find r = some o →
        ∃ H1, random_get_number F H0 r
            = Outcome.ok (F.value o.dist.a o.dist.b [o.engine.next.1], H1)
          ∧ H1.find r = some { engine := o.engine.next.2, dist := o.dist })
    ∧ (∃ H1, draw_many F n (random_construct A H S).2 (random_construct A H S).1
          = Outcome.ok ((List.range n).map (fun i =>
              F.value 0 1 [(mt19937_64.seed (static_cast_uint64_t S)).output i]), H1)
        ∧ H1.find (random_construct A H S).1
          = some { engine := mt19937_64.discard n (mt19937_64.seed (static_cast_uint64_t S)),
                   dist := { a := 0, b := 1 } }) := by
  refine ⟨canonical_invocations_eq, ?_, ?_⟩
  · intro H0 r o hr hf
    refine ⟨H0.store r (o.get_number F).2, ?_, ?_⟩
    · rw [get_number_live F H0 r o hr hf, get_number_value]
    · rw [find_store_same H0 r o _ hf, get_number_object]
  · obtain ⟨H1, hd, hf, _⟩ := draw_many_construct F A H S n
    refine ⟨H1, ?_, ?_⟩
    · rw [hd, draws_eq]
      rfl
    · rw [hf, after_eq]
      rfl

/-! ## The range of the values drawn under libstdc++ -/

theorem canonical_sum_sign (gs : List Nat) :
    0 ≤ (canonical_sum gs).1 ∧ 0 < (canonical_sum gs).2 := by
  induction gs with
  | nil => exact ⟨le_refl 0, one_pos⟩
  | cons g gs ih =>
    have hR : (0 : ℚ) < 2 ^ word_size := by positivity
    have hg : (0 : ℚ) ≤ (uint64_to_double g : ℚ) := Nat.cast_nonneg _
    constructor
    · show (0 : ℚ) ≤ (uint64_to_double g : ℚ) + 2 ^ word_size * (canonical_sum gs).1
      exact add_nonneg hg (mul_nonneg hR.le ih.1)
    · show (0 : ℚ) < 2 ^ word_size * (canonical_sum gs).2
      exact mul_pos hR ih.2

theorem libstdcxx_value_eq (gs : List Nat) :
    libstdcxx_eval.value 0 1 gs
      = if 1 ≤ (canonical_sum gs).1 / (canonical_sum gs).2 then 1 - 1 / 2 ^ double_digits
        else (canonical_sum gs).1 / (canonical_sum gs).2 := by
  show (if 1 ≤ (canonical_sum gs).1 / (canonical_sum gs).2 then 1 - 1 / 2 ^ double_digits
        else (canonical_sum gs).1 / (canonical_sum gs).2) * (1 - 0) + 0 = _
  rw [sub_zero, mul_one, add_zero]

theorem libstdcxx_value_range (gs : List Nat) :
    (0 : ℚ) ≤ libstdcxx_eval.value 0 1 gs ∧ libstdcxx_eval.value 0 1 gs < (1 : ℚ) := by
  rw [libstdcxx_value_eq]
  obtain ⟨h1, h2⟩ := canonical_sum_sign gs
  by_cases h : 1 ≤ (canonical_sum gs).1 / (canonical_sum gs).2
  · rw [if_pos h]
    have hp : (0 : ℚ) < 1 / 2 ^ double_digits := by positivity
    have hq : (1 : ℚ) / 2 ^ double_digits ≤ 1 := by
      rw [div_le_one (by positivity)]
      exact one_le_pow₀ (by norm_num)
    constructor
    · linarith
    · linarith
  · rw [if_neg h]
    exact ⟨div_nonneg h1 h2.le, lt_of_not_le h⟩

theorem uint64_max_to_double : uint64_to_double (2 ^ 64 - 1) = 2 ^ 64 := by decide

theorem libstdcxx_value_max :
    libstdcxx_eval.value 0 1 [2 ^ 64 - 1] = 1 - 1 / 2 ^ 53 := by
  rw [libstdcxx_value_eq]
  have hs : canonical_sum [2 ^ 64 - 1]
      = ((uint64_to_double (2 ^ 64 - 1) : ℚ) + 2 ^ word_size * 0, 2 ^ word_size * 1) := rfl
  rw [hs, uint64_max_to_double]
  have hq : (((2 ^ 64 : Nat) : ℚ) + 2 ^ word_size * 0) / (2 ^ word_size * 1) = 1 := by
    rw [mul_zero, add_zero, mul_one]
    show (((2 ^ 64 : Nat) : ℚ)) / 2 ^ 64 = 1
    norm_num
  simp only [hq]
  rw [if_pos (le_refl 1)]
  rfl

/-- Claim C2. Range, with the floating-point evaluation of libstdc++: for every allocator,
free store, seed `S` and number `N`, the first `N` draws on the instance constructed from `S`
all return, and every value `v` among them satisfies `0 <= v < 1`; the same holds of the value
computed from any engine output `g` whatever; and at the largest output `2 ^ 64 - 1`, which
the conversion to `double` rounds up to `2 ^ 64`, the value is `1 - 2 ^ -53`, not `1`. -/
theorem C2_range (A : Allocator) (H : Heap) (S : c_int) (N : Nat) :
    (∃ (vs : List ℚ) (H1 : Heap),
      draw_many libstdcxx_eval N (random_construct A H S).2 (random_construct A H S).1
        = Outcome.ok (vs, H1)
      ∧ vs.length = N
      ∧ ∀ v ∈ vs, 0 ≤ v ∧ v < 1)
    ∧ (∀ g : Nat, (0 : ℚ) ≤ libstdcxx_eval.value 0 1 [g]
        ∧ libstdcxx_eval.value 0 1 [g] < (1 : ℚ))
    ∧ uint64_to_double (2 ^ 64 - 1) = 2 ^ 64
    ∧ libstdcxx_eval.value 0 1 [2 ^ 64 - 1] = 1 - 1 / 2 ^ 53 := by
  refine ⟨?_, fun g => libstdcxx_value_range [g], uint64_max_to_double, libstdcxx_value_max⟩
  obtain ⟨H1, hd, _, _⟩ := draw_many_construct libstdcxx_eval A H S N
  refine ⟨_, H1, hd, draws_length libstdcxx_eval N _, ?_⟩
  intro v hv
  rw [draws_eq] at hv
  obtain ⟨i, _, hi⟩ := List.mem_map.mp hv
  rw [← hi]
  exact libstdcxx_value_range _

end KORC
